import Mathlib

/-!
Verification of the 2:4 structured-sparse GEMM wrapper
(`aten/src/ATen/native/sparse/cuda/StructuredSparseLinearCUTLASS.cu`).

The development shallowly embeds the three components of the source file:
the metadata builder kernel (`two_four_create_meta_kernel`), the metadata
reorder kernel (`two_four_reorder_meta_kernel`) and the dispatching
wrapper (`two_four_sgemm_cutlass` / `_structured_sparse_linear`).
Tensors are embedded as 2D strided descriptors over a flat store; the
opaque CUTLASS execution engine is out of scope and modelled as a step of
the launch trace.
-/

namespace StructuredSparse

/-- Element datatypes appearing in the source (PyTorch scalar types). -/
inductive DType where
  | bool | char | half | short | int | float
  deriving DecidableEq, Repr

/-- A 2D strided tensor descriptor: shape, per-axis strides, datatype and
flat storage.  Mirrors the information the source reads off an
`at::Tensor` argument (`size(0)`, `size(1)`, `strides()`, `dtype()`,
`data_ptr()`). -/
structure Tensor where
  rows : ℕ
  cols : ℕ
  stride0 : ℕ
  stride1 : ℕ
  dtype : DType
  data : ℕ → ℕ

/-- Device-kernel launches performed by `two_four_sgemm_cutlass`, in
order: the metadata builder kernel, the metadata reorder kernel, and the
(out-of-scope) CUTLASS sparse GEMM execution. -/
inductive Step where
  | buildMeta | reorderMeta | gemmRun
  deriving DecidableEq, Repr

/-! ## Metadata builder (`two_four_create_meta_kernel`) -/

/-- A mask element read through the kernel pointer argument
`(bool*)mask.data_ptr()`: any nonzero byte is `true`. -/
def maskBit (mask : ℕ → ℕ) (i : ℕ) : Bool := mask i != 0

/-- The four boolean values of group `k` in row `m` of the mask, read at
`mask[m * mask_stride + k * 4 + 0..3]` (the local variables `pos0`
.. `pos3` of the kernel, which receives the raw pointer `mask` and the
row stride `mask_stride`). -/
def groupPattern (maskStride : ℕ) (mask : ℕ → ℕ) (m k : ℕ) :
    Bool × Bool × Bool × Bool :=
  (maskBit mask (m * maskStride + k * 4),
   maskBit mask (m * maskStride + k * 4 + 1),
   maskBit mask (m * maskStride + k * 4 + 2),
   maskBit mask (m * maskStride + k * 4 + 3))

/-- The if-chain of `two_four_create_meta_kernel` mapping a 4-boolean
group pattern to its metadata nibble; the fall-through branch (where the
kernel performs `atomicExch(error, 1)`) is `none`. -/
def metaVal : Bool × Bool × Bool × Bool → Option ℕ
  | (true, true, false, false) => some 4
  | (true, false, true, false) => some 8
  | (false, true, true, false) => some 9
  | (true, false, false, true) => some 12
  | (false, true, false, true) => some 13
  | (false, false, true, true) => some 14
  | _ => none

/-- Number of `true` entries of a 4-boolean pattern. -/
def trueCount : Bool × Bool × Bool × Bool → ℕ
  | (b0, b1, b2, b3) => (cond b0 1 0) + (cond b1 1 0) + (cond b2 1 0) + (cond b3 1 0)

/-- Modelled from the spec words: the claimed code table.  Patterns with
exactly two `true` values map to the six fixed codes
(1,1,0,0) to 4, (1,0,1,0) to 8, (0,1,1,0) to 9, (1,0,0,1) to 12,
(0,1,0,1) to 13, (0,0,1,1) to 14; every other pattern signals the shared
failure flag (`none`). -/
def specMetaTable (p : Bool × Bool × Bool × Bool) : Option ℕ :=
  if trueCount p = 2 then
    some (match p with
      | (true, true, false, false) => 4
      | (true, false, true, false) => 8
      | (false, true, true, false) => 9
      | (true, false, false, true) => 12
      | (false, true, false, true) => 13
      | (false, false, true, true) => 14
      | _ => 0)
  else none

/-- The shared failure flag after the builder kernel completes: set
(via `atomicExch`) exactly when some in-range worker, i.e. some
`(m, k)` with `m < M` and `k < K / 4`, falls through the code table. -/
def buildErrorFlag (maskStride : ℕ) (mask : ℕ → ℕ) (M K : ℕ) : Bool :=
  (List.range M).any fun m =>
    (List.range (K / 4)).any fun k =>
      (metaVal (groupPattern maskStride mask m k)).isNone

theorem buildErrorFlag_iff (maskStride : ℕ) (mask : ℕ → ℕ) (M K : ℕ) :
    buildErrorFlag maskStride mask M K = true ↔
      ∃ m, m < M ∧ ∃ k, k < K / 4 ∧
        metaVal (groupPattern maskStride mask m k) = none := by
  simp [buildErrorFlag, List.any_eq_true, List.mem_range, Option.isNone_iff_eq_none]

/-- **C1.** For every 4-element mask group with exactly two `true`
values, the builder kernel emits the fixed 4-bit code of the table
((1,1,0,0) gives 4, (1,0,1,0) gives 8, (0,1,1,0) gives 9, (1,0,0,1)
gives 12, (0,1,0,1) gives 13, (0,0,1,1) gives 14); every other 4-bit
pattern falls through to the branch that sets the shared failure flag
(`metaVal` returns `none`). -/
theorem C1_builder_code_table :
    ∀ p : Bool × Bool × Bool × Bool, metaVal p = specMetaTable p := by
  decide

/-! ## Metadata reorderer (`two_four_reorder_meta_kernel`) -/

/-- Row-group size of the reorder kernel:
`int group = (sizeof(Element) == 2) ? 32 : 16`. -/
def metaGroup (esize : ℕ) : ℕ := if esize = 2 then 32 else 16

/-- Interleave factor of the reorder kernel:
`int interweave = (sizeof(Element) == 2) ? 4 : 2`. -/
def metaInterweave (esize : ℕ) : ℕ := if esize = 2 then 4 else 2

/-- Row relocation of the reorder kernel:
`dst_row = m / group * group + (m % 8) * interweave + (m % group) / 8`. -/
def rowPerm (group iw m : ℕ) : ℕ :=
  m / group * group + m % 8 * iw + m % group / 8

/-- The 2x2 Z-to-N block swizzle of the reorder kernel: an element at an
even row and odd column moves one row down and one column left; an
element at an odd row and even column moves one row up and one column
right; all other elements stay. -/
def swizzle (p : ℕ × ℕ) : ℕ × ℕ :=
  if p.1 % 2 = 0 ∧ p.2 % 2 = 1 then (p.1 + 1, p.2 - 1)
  else if p.1 % 2 = 1 ∧ p.2 % 2 = 0 then (p.1 - 1, p.2 + 1)
  else p

/-- Full destination coordinate of the source element at `p = (m, k)`:
row relocation followed by the 2x2 block swizzle. -/
def reorderIndex (group iw : ℕ) (p : ℕ × ℕ) : ℕ × ℕ :=
  swizzle (rowPerm group iw p.1, p.2)

/-- Inverse of `rowPerm` (valid when `group = 8 * iw`). -/
def rowPermInv (group iw r : ℕ) : ℕ :=
  r / group * group + 8 * (r % group % iw) + r % group / iw

/-- Inverse of `reorderIndex` (valid when `group = 8 * iw`): undo the
swizzle (it is an involution), then undo the row relocation. -/
def reorderInv (group iw : ℕ) (p : ℕ × ℕ) : ℕ × ℕ :=
  (rowPermInv group iw (swizzle p).1, (swizzle p).2)

/-- The `(M, N)` index grid the kernel is launched over. -/
def grid (M N : ℕ) : Set (ℕ × ℕ) := {p | p.1 < M ∧ p.2 < N}

/-- The matrix produced by the reorder kernel: destination `(r, c)`
holds the source value whose destination it is (positions written by no
in-range worker keep the allocation default 0). -/
def reorderedMatrix (group iw M N : ℕ) (src : ℕ → ℕ → ℕ) (r c : ℕ) : ℕ :=
  let p := reorderInv group iw (r, c)
  if p.1 < M ∧ p.2 < N then src p.1 p.2 else 0

theorem swizzle_swizzle (p : ℕ × ℕ) : swizzle (swizzle p) = p := by
  rcases p with ⟨r, c⟩
  unfold swizzle
  rcases Nat.even_or_odd r with hr | hr <;> rcases Nat.even_or_odd c with hc | hc <;>
    simp only [Nat.even_iff, Nat.odd_iff] at hr hc <;>
    simp only [] <;> split_ifs <;> simp_all <;> omega

theorem rowPerm_offset_lt {iw : ℕ} (hiw : 0 < iw) (m : ℕ) :
    m % 8 * iw + m % (8 * iw) / 8 < 8 * iw := by
  have hmul : m % 8 * iw ≤ 7 * iw :=
    Nat.mul_le_mul_right _ (by omega)
  have hdiv : m % (8 * iw) / 8 < iw :=
    Nat.div_lt_of_lt_mul (Nat.mod_lt m (by omega))
  calc m % 8 * iw + m % (8 * iw) / 8
      ≤ 7 * iw + m % (8 * iw) / 8 := Nat.add_le_add_right hmul _
    _ < 7 * iw + iw := Nat.add_lt_add_left hdiv _
    _ = 8 * iw := by ring

theorem rowPermInv_rowPerm {iw : ℕ} (hiw : 0 < iw) (m : ℕ) :
    rowPermInv (8 * iw) iw (rowPerm (8 * iw) iw m) = m := by
  have hg : 0 < 8 * iw := by omega
  have hblt : m % (8 * iw) / 8 < iw :=
    Nat.div_lt_of_lt_mul (Nat.mod_lt m hg)
  have ht : m % 8 * iw + m % (8 * iw) / 8 < 8 * iw := rowPerm_offset_lt hiw m
  have hr : rowPerm (8 * iw) iw m
      = (m % 8 * iw + m % (8 * iw) / 8) + m / (8 * iw) * (8 * iw) := by
    simp only [rowPerm]; ring
  have hdiv : rowPerm (8 * iw) iw m / (8 * iw) = m / (8 * iw) := by
    rw [hr, Nat.add_mul_div_right _ _ hg, Nat.div_eq_of_lt ht, Nat.zero_add]
  have hmod : rowPerm (8 * iw) iw m % (8 * iw)
      = m % 8 * iw + m % (8 * iw) / 8 := by
    rw [hr, Nat.add_mul_mod_self_right, Nat.mod_eq_of_lt ht]
  simp only [rowPermInv]
  rw [hdiv, hmod]
  have h1 : (m % 8 * iw + m % (8 * iw) / 8) % iw = m % (8 * iw) / 8 := by
    rw [Nat.mul_comm (m % 8) iw, Nat.mul_add_mod, Nat.mod_eq_of_lt hblt]
  have h2 : (m % 8 * iw + m % (8 * iw) / 8) / iw = m % 8 := by
    rw [Nat.mul_comm (m % 8) iw, Nat.mul_add_div hiw, Nat.div_eq_of_lt hblt,
      Nat.add_zero]
  rw [h1, h2]
  have e2 : m % (8 * iw) % 8 = m % 8 := Nat.mod_mod_of_dvd m ⟨iw, rfl⟩
  calc m / (8 * iw) * (8 * iw) + 8 * (m % (8 * iw) / 8) + m % 8
      = m / (8 * iw) * (8 * iw) + (8 * (m % (8 * iw) / 8) + m % (8 * iw) % 8) := by
        rw [e2]; ring
    _ = m / (8 * iw) * (8 * iw) + m % (8 * iw) := by rw [Nat.div_add_mod]
    _ = m := by rw [Nat.mul_comm]; exact Nat.div_add_mod m (8 * iw)

theorem rowPerm_rowPermInv {iw : ℕ} (hiw : 0 < iw) (r : ℕ) :
    rowPerm (8 * iw) iw (rowPermInv (8 * iw) iw r) = r := by
  have hg : 0 < 8 * iw := by omega
  have hx : r % (8 * iw) % iw < iw := Nat.mod_lt _ hiw
  have hy : r % (8 * iw) / iw < 8 := by
    have hlt : r % (8 * iw) < 8 * iw := Nat.mod_lt r hg
    exact Nat.div_lt_of_lt_mul (by linarith [hlt])
  have hu : 8 * (r % (8 * iw) % iw) + r % (8 * iw) / iw < 8 * iw := by
    linarith [hx, hy]
  have hr : rowPermInv (8 * iw) iw r
      = (8 * (r % (8 * iw) % iw) + r % (8 * iw) / iw) + r / (8 * iw) * (8 * iw) := by
    simp only [rowPermInv]; ring
  have hdiv : rowPermInv (8 * iw) iw r / (8 * iw) = r / (8 * iw) := by
    rw [hr, Nat.add_mul_div_right _ _ hg, Nat.div_eq_of_lt hu, Nat.zero_add]
  have hmod : rowPermInv (8 * iw) iw r % (8 * iw)
      = 8 * (r % (8 * iw) % iw) + r % (8 * iw) / iw := by
    rw [hr, Nat.add_mul_mod_self_right, Nat.mod_eq_of_lt hu]
  have hmod8 : rowPermInv (8 * iw) iw r % 8 = r % (8 * iw) / iw := by
    rw [hr, show r / (8 * iw) * (8 * iw) = r / (8 * iw) * iw * 8 from by ring,
      Nat.add_mul_mod_self_right, Nat.mul_add_mod, Nat.mod_eq_of_lt hy]
  have h2 : (8 * (r % (8 * iw) % iw) + r % (8 * iw) / iw) / 8
      = r % (8 * iw) % iw := by
    rw [Nat.mul_add_div (by omega), Nat.div_eq_of_lt hy, Nat.add_zero]
  simp only [rowPerm]
  rw [hdiv, hmod, hmod8, h2]
  calc r / (8 * iw) * (8 * iw) + r % (8 * iw) / iw * iw + r % (8 * iw) % iw
      = r / (8 * iw) * (8 * iw) + (iw * (r % (8 * iw) / iw) + r % (8 * iw) % iw) := by
        ring
    _ = r / (8 * iw) * (8 * iw) + r % (8 * iw) := by rw [Nat.div_add_mod]
    _ = r := by rw [Nat.mul_comm]; exact Nat.div_add_mod r (8 * iw)

theorem rowPerm_lt {iw M m : ℕ} (hiw : 0 < iw) (hM : 8 * iw ∣ M) (hm : m < M) :
    rowPerm (8 * iw) iw m < M := by
  have hq : m / (8 * iw) + 1 ≤ M / (8 * iw) := Nat.div_lt_div_of_lt_of_dvd hM hm
  have hle : m / (8 * iw) * (8 * iw) + 8 * iw ≤ M := by
    calc m / (8 * iw) * (8 * iw) + 8 * iw
        = (m / (8 * iw) + 1) * (8 * iw) := by ring
      _ ≤ M / (8 * iw) * (8 * iw) := Nat.mul_le_mul_right _ hq
      _ = M := Nat.div_mul_cancel hM
  have ht := rowPerm_offset_lt hiw m
  simp only [rowPerm]
  linarith [hle, ht]

theorem rowPermInv_lt {iw M r : ℕ} (hiw : 0 < iw) (hM : 8 * iw ∣ M) (hr : r < M) :
    rowPermInv (8 * iw) iw r < M := by
  have hg : 0 < 8 * iw := by omega
  have hq : r / (8 * iw) + 1 ≤ M / (8 * iw) := Nat.div_lt_div_of_lt_of_dvd hM hr
  have hle : r / (8 * iw) * (8 * iw) + 8 * iw ≤ M := by
    calc r / (8 * iw) * (8 * iw) + 8 * iw
        = (r / (8 * iw) + 1) * (8 * iw) := by ring
      _ ≤ M / (8 * iw) * (8 * iw) := Nat.mul_le_mul_right _ hq
      _ = M := Nat.div_mul_cancel hM
  have hx : r % (8 * iw) % iw < iw := Nat.mod_lt _ hiw
  have hy : r % (8 * iw) / iw < 8 := by
    have hlt : r % (8 * iw) < 8 * iw := Nat.mod_lt r hg
    exact Nat.div_lt_of_lt_mul (by linarith [hlt])
  simp only [rowPermInv]
  linarith [hle, hx, hy]

theorem swizzle_mem_grid {M N : ℕ} (hM : 2 ∣ M) (hN : 2 ∣ N) {p : ℕ × ℕ}
    (hp : p ∈ grid M N) : swizzle p ∈ grid M N := by
  rcases p with ⟨r, c⟩
  obtain ⟨hr, hc⟩ := hp
  obtain ⟨M2, rfl⟩ := hM
  obtain ⟨N2, rfl⟩ := hN
  simp only [grid, swizzle, Set.mem_setOf_eq] at *
  split_ifs with h1 h2 <;> constructor <;> simp only [] <;> omega

theorem reorderInv_reorderIndex {iw : ℕ} (hiw : 0 < iw) (p : ℕ × ℕ) :
    reorderInv (8 * iw) iw (reorderIndex (8 * iw) iw p) = p := by
  rcases p with ⟨m, k⟩
  simp only [reorderInv, reorderIndex, swizzle_swizzle (rowPerm (8 * iw) iw m, k)]
  exact Prod.ext (rowPermInv_rowPerm hiw m) rfl

theorem reorderIndex_reorderInv {iw : ℕ} (hiw : 0 < iw) (p : ℕ × ℕ) :
    reorderIndex (8 * iw) iw (reorderInv (8 * iw) iw p) = p := by
  simp only [reorderInv, reorderIndex, rowPerm_rowPermInv hiw]
  exact swizzle_swizzle p

theorem reorderIndex_mem_grid {iw M N : ℕ} (hiw : 0 < iw) (hM : 8 * iw ∣ M)
    (hN : 2 ∣ N) {p : ℕ × ℕ} (hp : p ∈ grid M N) :
    reorderIndex (8 * iw) iw p ∈ grid M N := by
  have hM2 : 2 ∣ M := dvd_trans ⟨4 * iw, by ring⟩ hM
  exact swizzle_mem_grid hM2 hN ⟨rowPerm_lt hiw hM hp.1, hp.2⟩

theorem reorderInv_mem_grid {iw M N : ℕ} (hiw : 0 < iw) (hM : 8 * iw ∣ M)
    (hN : 2 ∣ N) {p : ℕ × ℕ} (hp : p ∈ grid M N) :
    reorderInv (8 * iw) iw p ∈ grid M N := by
  have hM2 : 2 ∣ M := dvd_trans ⟨4 * iw, by ring⟩ hM
  have hs := swizzle_mem_grid hM2 hN hp
  exact ⟨rowPermInv_lt hiw hM hs.1, hs.2⟩

theorem reorder_bijOn {iw M N : ℕ} (hiw : 0 < iw) (hM : 8 * iw ∣ M) (hN : 2 ∣ N) :
    Set.BijOn (reorderIndex (8 * iw) iw) (grid M N) (grid M N) := by
  refine ⟨fun p hp => reorderIndex_mem_grid hiw hM hN hp, ?_, ?_⟩
  · intro p _ q _ h
    have h2 := congrArg (reorderInv (8 * iw) iw) h
    rwa [reorderInv_reorderIndex hiw, reorderInv_reorderIndex hiw] at h2
  · intro q hq
    exact ⟨reorderInv (8 * iw) iw q, reorderInv_mem_grid hiw hM hN hq,
      reorderIndex_reorderInv hiw q⟩

theorem metaGroup_eq (e : ℕ) :
    metaGroup e = 8 * metaInterweave e ∧ 0 < metaInterweave e := by
  unfold metaGroup metaInterweave
  split_ifs <;> norm_num

/-- **C2 (amended).** For both parameter settings of the reorder kernel
(group 32 / interleave 4 for 2-byte codes, group 16 / interleave 2
otherwise), the index map `dst_row = m / group * group +
(m % 8) * interleave + (m % group) / 8` followed by the 2x2 swizzle is a
bijection of the (M, N) grid for every M divisible by the group size
*and every even N*; applying it and then its explicit inverse recovers
every coordinate, and the reordered matrix holds the unmodified source
value at each destination. -/
theorem C2_reorder_bijection (e M N : ℕ) (hM : metaGroup e ∣ M) (hN : 2 ∣ N) :
    Set.BijOn (reorderIndex (metaGroup e) (metaInterweave e)) (grid M N) (grid M N) ∧
    (∀ p ∈ grid M N,
      reorderInv (metaGroup e) (metaInterweave e)
        (reorderIndex (metaGroup e) (metaInterweave e) p) = p ∧
      reorderIndex (metaGroup e) (metaInterweave e)
        (reorderInv (metaGroup e) (metaInterweave e) p) = p) ∧
    (∀ (src : ℕ → ℕ → ℕ) (p : ℕ × ℕ), p ∈ grid M N →
      reorderedMatrix (metaGroup e) (metaInterweave e) M N src
        (reorderIndex (metaGroup e) (metaInterweave e) p).1
        (reorderIndex (metaGroup e) (metaInterweave e) p).2 = src p.1 p.2) := by
  obtain ⟨hge, hiw⟩ := metaGroup_eq e
  rw [hge] at hM ⊢
  refine ⟨reorder_bijOn hiw hM hN, ?_, ?_⟩
  · exact fun p _ => ⟨reorderInv_reorderIndex hiw p, reorderIndex_reorderInv hiw p⟩
  · intro src p hp
    have hinv : reorderInv (8 * metaInterweave e) (metaInterweave e)
        (reorderIndex (8 * metaInterweave e) (metaInterweave e) p) = p :=
      reorderInv_reorderIndex hiw p
    simp only [reorderedMatrix]
    rw [show (((reorderIndex (8 * metaInterweave e) (metaInterweave e) p).1,
          (reorderIndex (8 * metaInterweave e) (metaInterweave e) p).2))
        = reorderIndex (8 * metaInterweave e) (metaInterweave e) p from rfl]
    rw [hinv]
    exact if_pos hp

/-- **C2 counterexample.** As frozen, the claim quantifies over every
(M, N) grid with M divisible by the group size, with no condition on N.
For the wider-code parameters (group 16, interleave 2), take M = 16 and
N = 1: the source element (8, 0) has `dst_row = 1`, and the swizzle
(odd row, even column) relocates it to (0, 1), which lies outside the
(16, 1) grid; hence the map is not a bijection of that grid. -/
theorem C2_counterexample :
    (metaGroup 4 ∣ 16) ∧
    ¬ Set.BijOn (reorderIndex (metaGroup 4) (metaInterweave 4))
        (grid 16 1) (grid 16 1) := by
  refine ⟨by decide, fun h => ?_⟩
  have hmem : ((8 : ℕ), (0 : ℕ)) ∈ grid 16 1 := ⟨by norm_num, by norm_num⟩
  have hin := h.mapsTo hmem
  have heq : reorderIndex (metaGroup 4) (metaInterweave 4) (8, 0) = (0, 1) := by
    decide
  rw [heq] at hin
  exact absurd hin.2 (by norm_num)

/-- Witness for C2: the round trip at the concrete point (5, 1) of the
(32, 2) grid with the 2-byte-code parameters. -/
theorem C2_reorder_bijection_witness :
    reorderInv (metaGroup 2) (metaInterweave 2)
      (reorderIndex (metaGroup 2) (metaInterweave 2) (5, 1)) = (5, 1) ∧
    reorderIndex (metaGroup 2) (metaInterweave 2)
      (reorderInv (metaGroup 2) (metaInterweave 2) (5, 1)) = (5, 1) :=
  (C2_reorder_bijection 2 32 2 (by decide) (by decide)).2.1 (5, 1)
    ⟨by norm_num, by norm_num⟩

/-! ## Nibble packing inside the builder kernel -/

/-- Modelled from the spec: the storage width in bytes of a metadata
element, fixed by the out-of-scope execution engine per numeric
specialization (the Reordered Metadata Matrix uses 2-byte codes under
the half-precision specialization and wider, 4-byte, codes under the
byte-integer one). -/
def elemESize (isHalf : Bool) : ℕ := if isHalf then 2 else 4

/-- `Gemm::kSparse`: a 2:4 sparse operand stores half of the logical
reduction dimension. -/
def kSparse : ℕ := 2

/-- Modelled from the spec: `Gemm::kElementsPerElementE`, the number of
compressed operand elements whose occupancy one metadata element
encodes.  Each 4-bit code covers 2 compressed elements, and a metadata
element of width `esize` bytes holds `2 * esize` codes, so the constant
equals `4 * esize`. -/
def kElementsPerElementE (isHalf : Bool) : ℕ := 4 * elemESize isHalf

/-- `meta_ncols = length_k / kSparse / kElementsPerElementE`. -/
def metaNcols (isHalf : Bool) (K : ℕ) : ℕ :=
  K / kSparse / kElementsPerElementE isHalf

/-- The per-worker metadata nibble `val`: the code of the worker group;
`val` keeps its initialization 0 when the pattern is invalid (the kernel
then also sets the error flag). -/
def workerVal (maskStride : ℕ) (mask : ℕ → ℕ) (m k : ℕ) : ℕ :=
  (metaVal (groupPattern maskStride mask m k)).getD 0

/-- One exchange of the packing loop, performed by every lane `k`
simultaneously: `val |= __shfl_down_sync(active_mask, val, i) << (4 * i)`. -/
def shflStep (vals : ℕ → ℕ) (i : ℕ) (k : ℕ) : ℕ :=
  vals k ||| vals (k + i) <<< (4 * i)

/-- The packing loop `for (auto i = 1; i < tile_size; i *= 2)` of the
builder kernel, acting on the whole lane-indexed family of values. -/
def shflFor (vals : ℕ → ℕ) (i tile : ℕ) : ℕ → ℕ :=
  if h : 0 < i ∧ i < tile then shflFor (shflStep vals i) (2 * i) tile else vals
termination_by tile - i
decreasing_by omega

/-- `tile_size = 2 * sizeof(T)`: the number of 4-bit codes packed into
one metadata storage unit. -/
def tileSize (isHalf : Bool) : ℕ := 2 * elemESize isHalf

/-- The value the builder kernel stores at `meta[m * meta_stride + j]`:
only the first lane of each packed unit (`k % tile_size == 0`, i.e.
`k = j * tile_size`) writes, after the packing loop finishes. -/
def builtMeta (maskStride : ℕ) (mask : ℕ → ℕ) (isHalf : Bool) (m j : ℕ) : ℕ :=
  shflFor (workerVal maskStride mask m) 1 (tileSize isHalf) (j * tileSize isHalf)

/-- The spec-side packed value: each worker of the unit contributes its
4-bit code shifted into its nibble position. -/
def packedNibbles (vals : ℕ → ℕ) (s k : ℕ) : ℕ :=
  ∑ i ∈ Finset.range (2 ^ s), vals (k + i) * 16 ^ i

theorem lor_shiftLeft_eq_add {a : ℕ} (s b : ℕ) (h : a < 2 ^ s) :
    a ||| b <<< s = a + b * 2 ^ s := by
  apply Nat.eq_of_testBit_eq
  intro j
  rw [Nat.testBit_lor, Nat.testBit_shiftLeft,
    show a + b * 2 ^ s = 2 ^ s * b + a from by ring,
    Nat.testBit_mul_pow_two_add b h j]
  rcases lt_or_ge j s with hj | hj
  · have h2 : ¬ s ≤ j := by omega
    simp [hj, h2]
  · have hab : a.testBit j = false :=
      Nat.testBit_lt_two_pow (lt_of_lt_of_le h (Nat.pow_le_pow_right (by norm_num) hj))
    have h2 : ¬ j < s := by omega
    simp [hj, h2, hab]

theorem packedNibbles_lt {vals : ℕ → ℕ} (hv : ∀ k, vals k < 16) (s k : ℕ) :
    packedNibbles vals s k < 16 ^ 2 ^ s := by
  unfold packedNibbles
  generalize 2 ^ s = n
  induction n with
  | zero => simp
  | succ n ih =>
    rw [Finset.sum_range_succ]
    have h1 : vals (k + n) * 16 ^ n ≤ 15 * 16 ^ n :=
      Nat.mul_le_mul_right _ (by have := hv (k + n); omega)
    have h2 : (16 : ℕ) ^ (n + 1) = 16 ^ n + 15 * 16 ^ n := by ring
    omega

theorem shflStep_packedNibbles {vals : ℕ → ℕ} (hv : ∀ k, vals k < 16) (s : ℕ) :
    shflStep (packedNibbles vals s) (2 ^ s) = packedNibbles vals (s + 1) := by
  funext k
  have h16 : (2 : ℕ) ^ (4 * 2 ^ s) = 16 ^ 2 ^ s := by
    rw [Nat.pow_mul]
  have hlt : packedNibbles vals s k < 2 ^ (4 * 2 ^ s) := by
    rw [h16]; exact packedNibbles_lt hv s k
  rw [shflStep, lor_shiftLeft_eq_add _ _ hlt, h16]
  simp only [packedNibbles]
  rw [show (2 : ℕ) ^ (s + 1) = 2 ^ s + 2 ^ s from by ring,
    Finset.sum_range_add, Finset.sum_mul]
  congr 1
  refine Finset.sum_congr rfl fun i _ => ?_
  rw [show k + (2 ^ s + i) = k + 2 ^ s + i from by ring, pow_add]
  ring

theorem shflFor_packedNibbles {vals : ℕ → ℕ} (hv : ∀ k, vals k < 16) :
    ∀ d s, shflFor (packedNibbles vals s) (2 ^ s) (2 ^ (s + d))
      = packedNibbles vals (s + d) := by
  intro d
  induction d with
  | zero =>
    intro s
    rw [shflFor]
    have hns : ¬ (0 < 2 ^ s ∧ 2 ^ s < 2 ^ (s + 0)) := by
      simp
    rw [dif_neg hns, Nat.add_zero]
  | succ d ih =>
    intro s
    rw [shflFor]
    have hpos : 0 < 2 ^ s ∧ 2 ^ s < 2 ^ (s + (d + 1)) := by
      constructor
      · positivity
      · exact Nat.pow_lt_pow_right (by norm_num) (by omega)
    rw [dif_pos hpos, shflStep_packedNibbles hv,
      show 2 * 2 ^ s = 2 ^ (s + 1) from by ring,
      show s + (d + 1) = (s + 1) + d from by ring]
    exact ih (s + 1)

theorem workerVal_lt (maskStride : ℕ) (mask : ℕ → ℕ) (m k : ℕ) :
    workerVal maskStride mask m k < 16 := by
  have h : ∀ p, (metaVal p).getD 0 < 16 := by decide
  exact h _

/-- The logarithm of `tile_size`: the packing loop runs `tileLog` times,
and `tile_size = 2 ^ tileLog`. -/
def tileLog (isHalf : Bool) : ℕ := if isHalf then 2 else 3

theorem tileSize_eq_pow (isHalf : Bool) : tileSize isHalf = 2 ^ tileLog isHalf := by
  cases isHalf <;> rfl

theorem builtMeta_eq (maskStride : ℕ) (mask : ℕ → ℕ) (isHalf : Bool) (m j : ℕ) :
    builtMeta maskStride mask isHalf m j
      = packedNibbles (workerVal maskStride mask m) (tileLog isHalf)
          (j * tileSize isHalf) := by
  have h0 : packedNibbles (workerVal maskStride mask m) 0
      = workerVal maskStride mask m := by
    funext k
    simp [packedNibbles]
  have h := congrFun
    (shflFor_packedNibbles (workerVal_lt maskStride mask m) (tileLog isHalf) 0)
    (j * tileSize isHalf)
  rw [h0] at h
  simpa [builtMeta, tileSize_eq_pow, pow_zero, Nat.zero_add] using h

/-- **C7 (amended).** Adjacent workers covering one storage unit
combine their 4-bit codes into one packed value, each contributing its
nibble shifted into position: the value stored for unit `j` of row `m`
equals the sum of the codes of workers `j * tile_size + i` weighted by
`16 ^ i`, where the number of codes packed per storage unit is
`tile_size = 2 * sizeof(T)` (4 codes for 2-byte units, 8 for 4-byte
units — not 2); the metadata matrix column count
`length_k / kSparse / kElementsPerElementE` equals
reduction length / 4 / codes-per-unit; and the writing worker of unit
`j` (the one with `k % tile_size == 0` and `k / tile_size = j`) is
exactly the first lane `k = j * tile_size` of the unit. -/
theorem C7_meta_packing :
    (∀ (maskStride : ℕ) (mask : ℕ → ℕ) (isHalf : Bool) (m j : ℕ),
      builtMeta maskStride mask isHalf m j
        = ∑ i ∈ Finset.range (tileSize isHalf),
            workerVal maskStride mask m (j * tileSize isHalf + i) * 16 ^ i) ∧
    (∀ (isHalf : Bool) (K : ℕ), metaNcols isHalf K = K / 4 / tileSize isHalf) ∧
    (∀ (isHalf : Bool) (j k : ℕ),
      (k % tileSize isHalf = 0 ∧ k / tileSize isHalf = j) ↔
        k = j * tileSize isHalf) := by
  refine ⟨?_, ?_, ?_⟩
  · intro maskStride mask isHalf m j
    rw [builtMeta_eq, packedNibbles, ← tileSize_eq_pow]
  · intro isHalf K
    cases isHalf <;>
      simp [metaNcols, kSparse, kElementsPerElementE, elemESize, tileSize,
        Nat.div_div_eq_div_mul]
  · intro isHalf j k
    cases isHalf <;> simp [tileSize, elemESize] <;> omega

/-- **C7 counterexample.** The claim asserts codes are packed
two-per-storage-unit, which would give a metadata column count of
reduction length / 4 / 2.  In the code the packing loop runs to
`tile_size = 2 * sizeof(T)`: for the half-precision specialization
(2-byte metadata elements) one storage unit receives 4 codes, and with
reduction length 64 the metadata matrix has
`64 / kSparse / kElementsPerElementE = 4` columns, not `64 / 4 / 2 = 8`. -/
theorem C7_counterexample :
    tileSize true = 4 ∧ metaNcols true 64 = 4 ∧ ¬ metaNcols true 64 = 64 / 4 / 2 := by
  decide

/-! ## The GEMM wrapper (`two_four_sgemm_cutlass`) -/

/-- `TORCH_CHECK(length_m % 32 == 0, ...)`. -/
def rowsMsg : String :=
  "torch._structured_sparse_linear: Number of rows of sparse matrix must be divisible by 32"

/-- `TORCH_CHECK(length_k % (input_a_is_half ? 64 : 128) == 0, ...)`. -/
def kMsg (isHalf : Bool) : String :=
  "torch._structured_sparse_linear: Number of rows of dense matrix must be divisible by "
    ++ (if isHalf then "64" else "128")

/-- `TORCH_CHECK(length_n % (input_a_is_half ? 8 : 16) == 0, ...)`. -/
def nMsg (isHalf : Bool) : String :=
  "torch._structured_sparse_linear: Number of columns of dense matrix must be divisible by "
    ++ (if isHalf then "8" else "16")

/-- `TORCH_CHECK(strides_mask[1] == 1, ...)`. -/
def maskStrideMsg : String :=
  "torch._structured_sparse_linear: Invalid strides for mask_or_meta argument"

/-- `TORCH_CHECK(error.item().equal(0), ...)`. -/
def not24Msg : String :=
  "torch._structured_sparse_linear: Mask matrix is not 2:4 sparse"

/-- Reduction-length divisor enforced per specialization. -/
def divisorK (isHalf : Bool) : ℕ := if isHalf then 64 else 128

/-- Dense-column divisor enforced per specialization. -/
def divisorN (isHalf : Bool) : ℕ := if isHalf then 8 else 16

/-- Output datatype per specialization: `int32_t` output maps to `kInt`,
`cutlass::half_t` output maps to `kHalf`. -/
def outDtype (isHalf : Bool) : DType := if isHalf then .half else .int

/-- Metadata datatype from `sizeof(ElementInputE)`: 2 maps to `kShort`,
4 maps to `kInt`. -/
def metaDtype (isHalf : Bool) : DType := if isHalf then .short else .int

/-- The pair returned by `two_four_sgemm_cutlass`: the product tensor
and the (reordered or passed-through) metadata tensor. -/
structure SgemmResult where
  product : Tensor
  meta : Tensor

/-- Result of one wrapper invocation together with the ordered trace of
device-kernel launches it performed. -/
structure SgemmOut where
  result : Except String SgemmResult
  trace : List Step

/-- The wrapper `two_four_sgemm_cutlass`: divisibility checks, output
allocation, optional metadata build + reorder (for a boolean mask), and
the GEMM run.  The physical on-device placement of the reordered
metadata is the engine-defined `Gemm::LayoutE`, out of scope here; its
logical content is represented flattened row-major.  The checks that
the mask has Strided layout and is 2-dimensional hold by construction
of the `Tensor` embedding and are not modelled separately; the
engine-status checks (`can_implement`, `initialize`, `run`) belong to
the out-of-scope execution engine, whose launch is the `gemmRun` trace
step. -/
def twoFourSgemm (isHalf : Bool) (a : Tensor) (aStride : ℕ) (b : Tensor)
    (bStride : ℕ) (maskOrMeta : Tensor) : SgemmOut :=
  let lengthM := a.rows
  let lengthK := b.rows
  let lengthN := b.cols
  let ncols := metaNcols isHalf lengthK
  if ¬ lengthM % 32 = 0 then ⟨.error rowsMsg, []⟩
  else if ¬ lengthK % divisorK isHalf = 0 then ⟨.error (kMsg isHalf), []⟩
  else if ¬ lengthN % divisorN isHalf = 0 then ⟨.error (nMsg isHalf), []⟩
  else
    let tensorD : Tensor :=
      ⟨lengthM, lengthN, lengthN, 1, outDtype isHalf, fun _ => 0⟩
    if maskOrMeta.dtype = .bool then
      if ¬ maskOrMeta.stride1 = 1 then ⟨.error maskStrideMsg, []⟩
      else if buildErrorFlag maskOrMeta.stride0 maskOrMeta.data lengthM lengthK then
        ⟨.error not24Msg, [.buildMeta]⟩
      else
        let metaReordered : Tensor :=
          ⟨lengthM, ncols, ncols, 1, metaDtype isHalf, fun i =>
            reorderedMatrix (metaGroup (elemESize isHalf))
              (metaInterweave (elemESize isHalf)) lengthM ncols
              (builtMeta maskOrMeta.stride0 maskOrMeta.data isHalf)
              (i / ncols) (i % ncols)⟩
        ⟨.ok ⟨tensorD, metaReordered⟩, [.buildMeta, .reorderMeta, .gemmRun]⟩
    else
      ⟨.ok ⟨tensorD, maskOrMeta⟩, [.gemmRun]⟩

/-! ## The dispatcher (`_structured_sparse_linear`) -/

/-- One compile-time specialization of the wrapper, as selected by
`AT_DISPATCH_SWITCH` plus the layout branch ladder: input element type,
output element type and the two operand layouts (row-major flags). -/
structure SpecConfig where
  inType : DType
  outType : DType
  aRowMajor : Bool
  bRowMajor : Bool
  deriving DecidableEq, Repr

/-- Layout word used in the unsupported-combination message (the source
spells the second one with an underscore). -/
def layoutName (rm : Bool) : String := if rm then "row-major" else "column_major"

/-- The `AT_ERROR` message of the unsupported layout combination. -/
def comboMsg (aRM bRM : Bool) : String :=
  "torch._structured_sparse_linear: Combination of tensor_a in "
    ++ layoutName aRM ++ " layout and tensor_b in " ++ layoutName bRM
    ++ " layout is not supported"

/-- The failure raised by the out-of-scope `AT_DISPATCH_SWITCH`
machinery for a datatype with no case. -/
def notImplMsg : String :=
  "_structured_sparse_linear not implemented for given scalar type"

/-- The specialization selection performed by `AT_DISPATCH_SWITCH` and
the layout branch ladders inside the two dispatch cases: `Char` has a
single branch (row-major `tensor_a` with column-major `tensor_b`) and
falls through to the unsupported-combination error otherwise; `Half`
has four branches covering every pairing. -/
def selectConfig (d : DType) (aRM bRM : Bool) : Except String SpecConfig :=
  match d with
  | .char =>
    if aRM = true ∧ bRM = false then .ok ⟨.char, .int, aRM, bRM⟩
    else .error (comboMsg aRM bRM)
  | .half =>
    if aRM = true ∧ bRM = true then .ok ⟨.half, .half, aRM, bRM⟩
    else if aRM = true ∧ bRM = false then .ok ⟨.half, .half, aRM, bRM⟩
    else if aRM = false ∧ bRM = true then .ok ⟨.half, .half, aRM, bRM⟩
    else .ok ⟨.half, .half, aRM, bRM⟩
  | _ => .error notImplMsg

/-- Modelled from the spec words (claim C4): the enumerated support
table.  The byte-integer specialization executes only for a row-major
sparse operand with a column-major dense operand; the half-precision
specialization executes for all four pairings; every enumerated
combination outside the table raises the combination-not-supported
error. -/
def specTable (d : DType) (aRM bRM : Bool) : Except String SpecConfig :=
  match d with
  | .char =>
    if aRM = true ∧ bRM = false then .ok ⟨.char, .int, aRM, bRM⟩
    else .error (comboMsg aRM bRM)
  | .half => .ok ⟨.half, .half, aRM, bRM⟩
  | _ => .error notImplMsg

/-- `TORCH_CHECK` on `strides_a`. -/
def strideAMsg : String :=
  "torch._structured_sparse_linear: Invalid strides for tensor_a argument"

/-- `TORCH_CHECK` on `strides_b`. -/
def strideBMsg : String :=
  "torch._structured_sparse_linear: Invalid strides for tensor_b argument"

/-- The stride validity condition of the dispatcher:
`(strides[0] == 1 || strides[1] == 1) && strides[0] != strides[1]`. -/
def strideOk (t : Tensor) : Prop :=
  (t.stride0 = 1 ∨ t.stride1 = 1) ∧ t.stride0 ≠ t.stride1

instance (t : Tensor) : Decidable (strideOk t) := by
  unfold strideOk; infer_instance

/-- The dispatcher `_structured_sparse_linear`: validate operand
strides, determine the layouts, select a specialization by datatype and
layout pair, and run the wrapper.  The compute-capability query on the
current device is an out-of-scope environment read and is not modelled;
the Strided-layout and 2-dimensionality checks on the operands hold by
construction of the `Tensor` embedding. -/
def structuredSparseLinear (a b maskOrMeta : Tensor) : SgemmOut :=
  if ¬ strideOk a then ⟨.error strideAMsg, []⟩
  else if ¬ strideOk b then ⟨.error strideBMsg, []⟩
  else
    let aRM : Bool := a.stride1 == 1
    let bRM : Bool := b.stride1 == 1
    let aStride := if aRM then a.stride0 else a.stride1
    let bStride := if bRM then b.stride0 else b.stride1
    match selectConfig a.dtype aRM bRM with
    | .error e => ⟨.error e, []⟩
    | .ok cfg => twoFourSgemm (cfg.inType == .half) a aStride b bStride maskOrMeta

/-! ## Helper characterizations of the pipeline -/

theorem metaVal_none_iff : ∀ p, metaVal p = none ↔ trueCount p ≠ 2 := by
  decide

theorem twoFourSgemm_nonbool (isHalf : Bool) (a : Tensor) (aS : ℕ) (b : Tensor)
    (bS : ℕ) (mm : Tensor) (hmm : ¬ mm.dtype = .bool) :
    twoFourSgemm isHalf a aS b bS mm
      = if ¬ a.rows % 32 = 0 then ⟨.error rowsMsg, []⟩
        else if ¬ b.rows % divisorK isHalf = 0 then ⟨.error (kMsg isHalf), []⟩
        else if ¬ b.cols % divisorN isHalf = 0 then ⟨.error (nMsg isHalf), []⟩
        else ⟨.ok ⟨⟨a.rows, b.cols, b.cols, 1, outDtype isHalf, fun _ => 0⟩, mm⟩,
              [.gemmRun]⟩ := by
  simp only [twoFourSgemm]
  split_ifs <;> rfl

theorem sgemm_ok_product (isHalf : Bool) (a : Tensor) (aS : ℕ) (b : Tensor)
    (bS : ℕ) (mm : Tensor) (r : SgemmResult)
    (h : (twoFourSgemm isHalf a aS b bS mm).result = .ok r) :
    r.product = ⟨a.rows, b.cols, b.cols, 1, outDtype isHalf, fun _ => 0⟩ := by
  simp only [twoFourSgemm] at h
  split_ifs at h
  · injection h with h2
    subst h2
    rfl
  · injection h with h2
    subst h2
    rfl

theorem selectConfig_ok_inType (d : DType) (aRM bRM : Bool) (cfg : SpecConfig)
    (h : selectConfig d aRM bRM = .ok cfg) : cfg.inType = d := by
  cases d <;> simp only [selectConfig] at h <;> try cases h
  · split_ifs at h <;> injection h with h2 <;> rw [← h2]
  · split_ifs at h <;> injection h with h2 <;> rw [← h2]

theorem dispatcher_ok (a b mm : Tensor) (r : SgemmResult)
    (h : (structuredSparseLinear a b mm).result = .ok r) :
    ∃ cfg, selectConfig a.dtype (a.stride1 == 1) (b.stride1 == 1) = .ok cfg ∧
      r.product = ⟨a.rows, b.cols, b.cols, 1,
        outDtype (cfg.inType == .half), fun _ => 0⟩ := by
  simp only [structuredSparseLinear] at h
  split_ifs at h
  all_goals
    split at h
    · simp at h
    · next cfg heq => exact ⟨cfg, heq, sgemm_ok_product _ _ _ _ _ _ _ h⟩

/-! ## Remaining claims -/

/-- **C3.** When a boolean mask is supplied on an otherwise valid call
and some 4-element group along the reduction axis does not contain
exactly 2 true values, the operation fails with the not-2:4-sparse
error: the flag set by the builder workers is checked right after the
builder kernel, before any further step runs (the launch trace stops at
the builder), and no product or metadata is returned. -/
theorem C3_invalid_mask_error (a b mm : Tensor) (cfg : SpecConfig)
    (hsa : strideOk a) (hsb : strideOk b)
    (hsel : selectConfig a.dtype (a.stride1 == 1) (b.stride1 == 1) = .ok cfg)
    (hm : a.rows % 32 = 0)
    (hk : b.rows % divisorK (cfg.inType == .half) = 0)
    (hn : b.cols % divisorN (cfg.inType == .half) = 0)
    (hbool : mm.dtype = .bool) (hms : mm.stride1 = 1)
    (hbad : ∃ m, m < a.rows ∧ ∃ k, k < b.rows / 4 ∧
      trueCount (groupPattern mm.stride0 mm.data m k) ≠ 2) :
    structuredSparseLinear a b mm = ⟨.error not24Msg, [Step.buildMeta]⟩ := by
  have hflag : buildErrorFlag mm.stride0 mm.data a.rows b.rows = true := by
    rw [buildErrorFlag_iff]
    obtain ⟨m, hm1, k, hk1, hp⟩ := hbad
    exact ⟨m, hm1, k, hk1, (metaVal_none_iff _).2 hp⟩
  simp only [structuredSparseLinear]
  rw [if_neg (not_not_intro hsa), if_neg (not_not_intro hsb)]
  simp only [hsel]
  simp only [twoFourSgemm]
  rw [if_neg (not_not_intro hm), if_neg (not_not_intro hk),
    if_neg (not_not_intro hn), if_pos hbool, if_neg (not_not_intro hms),
    if_pos hflag]

/-- Concrete boolean mask tensor whose entries are all zero (so its very
first 4-group has zero true values). -/
def exBadMask : Tensor := ⟨32, 64, 64, 1, .bool, fun _ => 0⟩

/-- Concrete half-precision row-major sparse operand, 32 x 32. -/
def exHalfA : Tensor := ⟨32, 32, 32, 1, .half, fun _ => 0⟩

/-- Concrete half-precision row-major dense operand, 64 x 8. -/
def exHalfB : Tensor := ⟨64, 8, 8, 1, .half, fun _ => 0⟩

/-- Witness for C3 at a concrete invalid-mask call. -/
theorem C3_invalid_mask_error_witness :
    structuredSparseLinear exHalfA exHalfB exBadMask
      = ⟨.error not24Msg, [Step.buildMeta]⟩ :=
  C3_invalid_mask_error exHalfA exHalfB exBadMask ⟨.half, .half, true, true⟩
    (by decide) (by decide) rfl (by decide) (by decide) (by decide) rfl rfl
    ⟨0, by decide, 0, by decide, by decide⟩

/-- **C4.** The supported (datatype, layout-pair) combinations are
exactly the enumerated table: the byte-integer specialization is
selected only for a row-major sparse operand with a column-major dense
operand, the half-precision specialization is selected for all four
pairings, and each enumerated combination outside the table yields the
combination-not-supported error instead of some other specialization. -/
theorem C4_supported_combinations :
    ∀ aRM bRM : Bool,
      selectConfig .char aRM bRM = specTable .char aRM bRM ∧
      selectConfig .half aRM bRM = specTable .half aRM bRM := by
  intro aRM bRM
  cases aRM <;> cases bRM <;> exact ⟨rfl, rfl⟩

/-- **C5.** Each divisibility precondition is a distinct fatal
validation error raised before any device work (empty launch trace):
sparse-operand rows divisible by 32; reduction length divisible by 64
under half-precision and 128 under byte-integer; dense-operand columns
divisible by 8 under half-precision and 16 under byte-integer. -/
theorem C5_divisibility_checks (isHalf : Bool) (a b mm : Tensor)
    (aStride bStride : ℕ) :
    (¬ a.rows % 32 = 0 →
      twoFourSgemm isHalf a aStride b bStride mm = ⟨.error rowsMsg, []⟩) ∧
    (a.rows % 32 = 0 → ¬ b.rows % divisorK isHalf = 0 →
      twoFourSgemm isHalf a aStride b bStride mm = ⟨.error (kMsg isHalf), []⟩) ∧
    (a.rows % 32 = 0 → b.rows % divisorK isHalf = 0 →
      ¬ b.cols % divisorN isHalf = 0 →
      twoFourSgemm isHalf a aStride b bStride mm = ⟨.error (nMsg isHalf), []⟩) ∧
    (divisorK true = 64 ∧ divisorK false = 128 ∧
      divisorN true = 8 ∧ divisorN false = 16) ∧
    (rowsMsg ≠ kMsg isHalf ∧ rowsMsg ≠ nMsg isHalf ∧ kMsg isHalf ≠ nMsg isHalf) := by
  refine ⟨?_, ?_, ?_, by decide, ?_⟩
  · intro h1
    simp only [twoFourSgemm]
    rw [if_pos h1]
  · intro h1 h2
    simp only [twoFourSgemm]
    rw [if_neg (not_not_intro h1), if_pos h2]
  · intro h1 h2 h3
    simp only [twoFourSgemm]
    rw [if_neg (not_not_intro h1), if_neg (not_not_intro h2), if_pos h3]
  · cases isHalf <;> exact ⟨by decide, by decide, by decide⟩

/-- Sparse operand with 31 rows (not divisible by 32). -/
def exA31 : Tensor := ⟨31, 32, 32, 1, .half, fun _ => 0⟩

/-- Witness for C5: the 31-row sparse operand trips the first check. -/
theorem C5_divisibility_checks_witness :
    twoFourSgemm true exA31 0 exHalfB 0 exBadMask = ⟨.error rowsMsg, []⟩ :=
  (C5_divisibility_checks true exA31 exHalfB exBadMask 0 0).1 (by decide)

theorem meta_of_error {e : String} {tr : List Step} {mm : Tensor} :
    ∀ r : SgemmResult, (SgemmOut.mk (.error e) tr).result = .ok r → r.meta = mm :=
  fun _ hr => nomatch hr

theorem meta_of_false {mm : Tensor} : ∀ r : SgemmResult, False → r.meta = mm :=
  fun _ hr => hr.elim

/-- **C6.** Whenever maskOrMetadata is not boolean-typed, the builder
and reorder kernels are never launched (neither appears in the trace),
and on success the very tensor passed in is returned unchanged as the
metadata component of the result tuple alongside the product. -/
theorem C6_meta_passthrough (a b mm : Tensor) (hmm : mm.dtype ≠ .bool) :
    (Step.buildMeta ∉ (structuredSparseLinear a b mm).trace ∧
     Step.reorderMeta ∉ (structuredSparseLinear a b mm).trace) ∧
    (∀ r, (structuredSparseLinear a b mm).result = .ok r → r.meta = mm) := by
  simp only [structuredSparseLinear]
  split_ifs
  all_goals try split
  all_goals try rw [twoFourSgemm_nonbool _ _ _ _ _ _ hmm]
  all_goals try split_ifs
  all_goals
    first
    | exact ⟨⟨by simp, by simp⟩, meta_of_error⟩
    | exact ⟨⟨by simp, by simp⟩, meta_of_false⟩
    | (refine ⟨⟨by simp, by simp⟩, fun r hr => ?_⟩
       injection hr with h6
       subst h6
       rfl)

/-- Concrete byte-integer row-major sparse operand, 32 x 64. -/
def exCharA : Tensor := ⟨32, 64, 64, 1, .char, fun _ => 0⟩

/-- Concrete byte-integer column-major dense operand, 128 x 16. -/
def exCharB : Tensor := ⟨128, 16, 1, 128, .char, fun _ => 0⟩

/-- Concrete pre-built metadata tensor (non-boolean dtype). -/
def exMetaInt : Tensor := ⟨32, 8, 8, 1, .int, fun _ => 0⟩

/-- The successful result of the concrete byte-integer call. -/
def exCharRes : SgemmResult :=
  ⟨⟨32, 16, 16, 1, .int, fun _ => 0⟩, exMetaInt⟩

/-- Witness for C6: on the concrete non-boolean-metadata call, the
returned metadata component is the tensor passed in. -/
theorem C6_meta_passthrough_witness :
    exCharRes.meta = exMetaInt :=
  (C6_meta_passthrough exCharA exCharB exMetaInt (by decide)).2 exCharRes rfl

/-- **C8.** For every successful call, the returned product matrix has
shape (sparse rows) x (dense columns), and its element datatype follows
the selected specialization: 32-bit integer output for byte-integer
inputs, half-precision output for half-precision inputs. -/
theorem C8_output_shape_dtype (a b mm : Tensor) (r : SgemmResult)
    (h : (structuredSparseLinear a b mm).result = .ok r) :
    r.product.rows = a.rows ∧ r.product.cols = b.cols ∧
    (a.dtype = .char → r.product.dtype = .int) ∧
    (a.dtype = .half → r.product.dtype = .half) := by
  obtain ⟨cfg, hsel, hprod⟩ := dispatcher_ok a b mm r h
  have hin := selectConfig_ok_inType _ _ _ _ hsel
  rw [hprod]
  refine ⟨rfl, rfl, ?_, ?_⟩
  · intro hchar
    rw [hchar] at hin
    rw [show (cfg.inType == DType.half) = false from by rw [hin]; rfl]
    rfl
  · intro hhalf
    rw [hhalf] at hin
    rw [show (cfg.inType == DType.half) = true from by rw [hin]; rfl]
    rfl

/-- Witness for C8 at the concrete successful byte-integer call. -/
theorem C8_output_shape_dtype_witness :
    exCharRes.product.rows = exCharA.rows ∧
    exCharRes.product.cols = exCharB.cols ∧
    (exCharA.dtype = .char → exCharRes.product.dtype = .int) ∧
    (exCharA.dtype = .half → exCharRes.product.dtype = .half) :=
  C8_output_shape_dtype exCharA exCharB exMetaInt exCharRes rfl

/-- **C9.** For every successful call, the product matrix is produced
in row-major layout: unit column stride (and row stride equal to the
dense-operand column count), regardless of the input layouts. -/
theorem C9_output_row_major (a b mm : Tensor) (r : SgemmResult)
    (h : (structuredSparseLinear a b mm).result = .ok r) :
    r.product.stride1 = 1 ∧ r.product.stride0 = b.cols := by
  obtain ⟨cfg, hsel, hprod⟩ := dispatcher_ok a b mm r h
  rw [hprod]
  exact ⟨rfl, rfl⟩

/-- Witness for C9 at the concrete successful byte-integer call (whose
dense operand is column-major). -/
theorem C9_output_row_major_witness :
    exCharRes.product.stride1 = 1 ∧ exCharRes.product.stride0 = exCharB.cols :=
  C9_output_row_major exCharA exCharB exMetaInt exCharRes rfl

/-- **C10.** The dispatcher derives the reduction length solely from
the dense-operand row count: the outcome of every validation step is
unchanged under arbitrary replacement of the sparse-operand column
count and of the mask declared dimensions, so mutually inconsistent K
dimensions that individually pass the stride and divisibility checks
raise no precondition error; for a boolean mask the entire output is
unchanged. -/
theorem C10_k_never_cross_validated (a b mm : Tensor) (x xr xc : ℕ) :
    ((structuredSparseLinear { a with cols := x } b
        { mm with rows := xr, cols := xc }).result.isOk
      = (structuredSparseLinear a b mm).result.isOk) ∧
    ((structuredSparseLinear { a with cols := x } b
        { mm with rows := xr, cols := xc }).trace
      = (structuredSparseLinear a b mm).trace) ∧
    (mm.dtype = .bool →
      structuredSparseLinear { a with cols := x } b
        { mm with rows := xr, cols := xc }
      = structuredSparseLinear a b mm) := by
  rcases a with ⟨ar, ac, as0, as1, ad, af⟩
  rcases mm with ⟨mr, mc, ms0, ms1, md, mf⟩
  simp only [structuredSparseLinear, twoFourSgemm, strideOk]
  split_ifs <;>
    first
      | exact ⟨rfl, rfl, fun _ => rfl⟩
      | (split <;>
          first
            | exact ⟨rfl, rfl, fun _ => rfl⟩
            | (split_ifs <;>
                first
                  | exact ⟨rfl, rfl, fun _ => rfl⟩
                  | exact ⟨rfl, rfl, fun hb => absurd hb (by assumption)⟩))

/-- Sparse operand with deliberately inconsistent column count (7,
whereas the dense operand implies K = 128 and hence 64 sparse columns). -/
def exCharABadK : Tensor := ⟨32, 7, 64, 1, .char, fun _ => 0⟩

/-- Witness for C10: with the inconsistent 7-column sparse operand the
call still succeeds (no precondition error is raised). -/
theorem C10_k_never_cross_validated_witness :
    (structuredSparseLinear exCharABadK exCharB exMetaInt).result.isOk = true ∧
    (structuredSparseLinear exCharABadK exCharB
      { exMetaInt with rows := 3, cols := 5 }).result.isOk
      = (structuredSparseLinear exCharABadK exCharB exMetaInt).result.isOk :=
  ⟨rfl, (C10_k_never_cross_validated exCharABadK exCharB exMetaInt 7 3 5).1⟩

end StructuredSparse
